import Mathlib

/-!
Verification development for the django-mysql repository: a shallow
embedding of the MySQLCache database-backed cache engine (modelled from
spec.md, whose cache module is represented in this repository only by its
test suite), of the `PTFingerprintThread` singleton helper from
`django_mysql/utils.py`, and of `KeyTransform.compile_json_path` from
`django_mysql/models/fields/json.py`.
-/

/-! ## Decimal rendering of integers

The cache key codec builds physical keys with Python string formatting
`'%s:%s:%s' % (key_prefix, version, key)`; the JSON path compiler uses
`'[{0}]'.format(num)`.  Both format integers in decimal.  We embed decimal
formatting directly (digit list with explicit fuel, so the kernel can
evaluate it), and prove the facts the key codec needs: the rendering is
injective and never contains the `:` separator. -/

/-- Decimal digit character for a digit value 0‥9. -/
def digitChar : Nat → Char
  | 0 => '0'
  | 1 => '1'
  | 2 => '2'
  | 3 => '3'
  | 4 => '4'
  | 5 => '5'
  | 6 => '6'
  | 7 => '7'
  | 8 => '8'
  | 9 => '9'
  | _ => '*'

/-- Digit list of a natural number, most significant first; `fuel` bounds
the recursion depth (callers pass `n` itself, which suffices). -/
def natDigitsAux : Nat → Nat → List Char
  | 0, _ => []
  | _ + 1, 0 => []
  | fuel + 1, n + 1 =>
    natDigitsAux fuel ((n + 1) / 10) ++ [digitChar ((n + 1) % 10)]

/-- Decimal digit list of a natural number (empty for 0). -/
def natDigits (n : Nat) : List Char := natDigitsAux n n

/-- Decimal string of a natural number, as Python `str` renders it. -/
def natRepr (n : Nat) : String :=
  if n = 0 then "0" else String.mk (natDigits n)

/-- Decimal string of an integer, as Python `str` renders it. -/
def intRepr : Int → String
  | Int.ofNat n => natRepr n
  | Int.negSucc n => "-" ++ natRepr (n + 1)

/-- Numeric value of a digit character. -/
def charVal (c : Char) : Nat := c.toNat - 48

/-- Value of a most-significant-first digit list. -/
def listVal (cs : List Char) : Nat :=
  cs.foldl (fun a c => 10 * a + charVal c) 0

theorem charVal_digitChar (d : Nat) (hd : d < 10) :
    charVal (digitChar d) = d := by
  interval_cases d <;> decide

theorem digitChar_ne (d : Nat) :
    digitChar d ≠ ':' ∧ digitChar d ≠ '-' := by
  unfold digitChar
  split <;> exact ⟨by decide, by decide⟩

theorem listVal_append_digit (cs : List Char) (c : Char) :
    listVal (cs ++ [c]) = 10 * listVal cs + charVal c := by
  simp [listVal, List.foldl_append]

theorem listVal_natDigitsAux (fuel n : Nat) (h : n ≤ fuel) :
    listVal (natDigitsAux fuel n) = n := by
  induction fuel generalizing n with
  | zero =>
    interval_cases n
    simp [natDigitsAux, listVal]
  | succ fuel ih =>
    match n with
    | 0 => simp [natDigitsAux, listVal]
    | n + 1 =>
      have hdiv : (n + 1) / 10 ≤ fuel := by
        have h1 : (n + 1) / 10 < n + 1 := Nat.div_lt_self (Nat.succ_pos n) (by omega)
        omega
      rw [natDigitsAux, listVal_append_digit, ih _ hdiv,
        charVal_digitChar _ (Nat.mod_lt _ (by omega))]
      omega

theorem listVal_natDigits (n : Nat) : listVal (natDigits n) = n :=
  listVal_natDigitsAux n n (Nat.le_refl n)

theorem natDigits_injective (n m : Nat) (h : natDigits n = natDigits m) :
    n = m := by
  have := listVal_natDigits n
  rw [h, listVal_natDigits] at this
  omega

theorem mem_natDigitsAux_ne (fuel n : Nat) (c : Char)
    (hc : c ∈ natDigitsAux fuel n) : c ≠ ':' ∧ c ≠ '-' := by
  induction fuel generalizing n with
  | zero => simp [natDigitsAux] at hc
  | succ fuel ih =>
    match n with
    | 0 => simp [natDigitsAux] at hc
    | n + 1 =>
      rw [natDigitsAux] at hc
      rcases List.mem_append.mp hc with h1 | h1
      · exact ih _ h1
      · have : c = digitChar ((n + 1) % 10) := by simpa using h1
        rw [this]; exact digitChar_ne _

theorem mem_natRepr_ne (n : Nat) (c : Char) (hc : c ∈ (natRepr n).data) :
    c ≠ ':' ∧ c ≠ '-' := by
  unfold natRepr at hc
  split at hc
  · have : c = '0' := by simpa [String.data] using hc
    rw [this]; exact ⟨by decide, by decide⟩
  · exact mem_natDigitsAux_ne n n c (by simpa using hc)

theorem natRepr_injective (n m : Nat) (h : natRepr n = natRepr m) :
    n = m := by
  unfold natRepr at h
  split at h <;> split at h
  · omega
  · exfalso
    rename_i h0 hm
    have hdig : natDigits m = ['0'] := by
      have := congrArg String.data h
      simpa using this.symm
    have := listVal_natDigits m
    rw [hdig] at this
    simp [listVal, charVal] at this
    omega
  · exfalso
    rename_i hn h0
    have hdig : natDigits n = ['0'] := by
      have := congrArg String.data h
      simpa using this
    have := listVal_natDigits n
    rw [hdig] at this
    simp [listVal, charVal] at this
    omega
  · have := congrArg String.data h
    simp at this
    exact natDigits_injective n m this

theorem mem_intRepr_ne_colon (i : Int) (c : Char) (hc : c ∈ (intRepr i).data) :
    c ≠ ':' := by
  match i with
  | Int.ofNat n => exact (mem_natRepr_ne n c hc).1
  | Int.negSucc n =>
    simp only [intRepr] at hc
    rw [String.data_append] at hc
    rcases List.mem_append.mp hc with h1 | h1
    · have : c = '-' := by simpa [String.data] using h1
      rw [this]; decide
    · exact (mem_natRepr_ne (n + 1) c h1).1

theorem intRepr_injective (i j : Int) (h : intRepr i = intRepr j) :
    i = j := by
  match i, j with
  | Int.ofNat n, Int.ofNat m =>
    exact congrArg Int.ofNat (natRepr_injective n m h)
  | Int.ofNat n, Int.negSucc m =>
    exfalso
    have hd := congrArg String.data h
    simp only [intRepr] at hd
    rw [String.data_append] at hd
    have hm : '-' ∈ (natRepr n).data := by
      rw [hd]; simp [String.data]
    exact (mem_natRepr_ne n '-' hm).2 rfl
  | Int.negSucc n, Int.ofNat m =>
    exfalso
    have hd := congrArg String.data h
    simp only [intRepr] at hd
    rw [String.data_append] at hd
    have hm : '-' ∈ (natRepr m).data := by
      rw [← hd]; simp [String.data]
    exact (mem_natRepr_ne m '-' hm).2 rfl
  | Int.negSucc n, Int.negSucc m =>
    have hd := congrArg String.data h
    simp only [intRepr] at hd
    rw [String.data_append, String.data_append] at hd
    have h1 := List.append_cancel_left hd
    have h2 := natRepr_injective (n + 1) (m + 1) (String.ext h1)
    have h3 : n = m := by omega
    rw [h3]

/-- Splitting a character list at a `:` separator is unambiguous when the
part before the separator is `:`-free. -/
theorem colon_split (a : List Char) : ∀ (b x y : List Char),
    (∀ c ∈ a, c ≠ ':') → (∀ c ∈ b, c ≠ ':') →
    a ++ ':' :: x = b ++ ':' :: y → a = b ∧ x = y := by
  induction a with
  | nil =>
    intro b x y _ hb h
    match b with
    | [] => simpa using h
    | d :: b' =>
      rw [List.nil_append, List.cons_append] at h
      injection h with h1 h2
      exact absurd h1.symm (hb d (List.mem_cons_self d b'))
  | cons c a' ih =>
    intro b x y ha hb h
    match b with
    | [] =>
      rw [List.cons_append, List.nil_append] at h
      injection h with h1 h2
      exact absurd h1 (ha c (List.mem_cons_self c a'))
    | d :: b' =>
      rw [List.cons_append, List.cons_append] at h
      injection h with h1 h2
      obtain ⟨hab, hxy⟩ := ih b' x y (fun e he => ha e (List.mem_cons_of_mem c he))
        (fun e he => hb e (List.mem_cons_of_mem d he)) h2
      exact ⟨by rw [h1, hab], hxy⟩

/-! ## Cache engine data model

Modelled from the spec: the MySQLCache cache engine itself is absent from
this repository snapshot (only `tests/django_mysql_tests/test_cache.py`
exercises it), so the engine is embedded from spec.md sections 3-4.
The storage table is an association list from physical key to row; times
are integers (seconds); the pseudo-random draw that drives the cull
policy and the pseudo-random choice of evicted rows are abstracted by an
explicit `draw` parameter and a deterministic truncation. -/

/-- Modelled from the spec: configuration surface of one cache instance
(`KEY_PREFIX`, default `VERSION`, `OPTIONS.MAX_ENTRIES`,
`OPTIONS.CULL_FREQUENCY`).  The field `pre` holds the `KEY_PREFIX`
string. -/
structure CacheConfig where
  pre : String
  version : Int
  max_entries : Nat
  cull_frequency : Nat
  deriving DecidableEq, Repr

/-- Modelled from the spec: default key codec, Python
`'%s:%s:%s' % (key_prefix, version, key)`; an explicit version argument
overrides the instance default. -/
def make_key (cfg : CacheConfig) (version : Option Int) (key : String) : String :=
  cfg.pre ++ ":" ++ intRepr (version.getD cfg.version) ++ ":" ++ key

theorem make_key_data (cfg : CacheConfig) (version : Option Int) (key : String) :
    (make_key cfg version key).data =
      cfg.pre.data ++ ':' ::
        ((intRepr (version.getD cfg.version)).data ++ ':' :: key.data) := by
  simp [make_key, String.data_append]

/-- The default key codec is injective in (version, logical key) for a
fixed prefix: the decimal version segment contains no `:`. -/
theorem make_key_injective (cfg : CacheConfig) (v1 v2 : Option Int) (k1 k2 : String)
    (h : make_key cfg v1 k1 = make_key cfg v2 k2) :
    v1.getD cfg.version = v2.getD cfg.version ∧ k1 = k2 := by
  have hd := congrArg String.data h
  rw [make_key_data, make_key_data] at hd
  have h2 := List.append_cancel_left hd
  injection h2 with _ h3
  obtain ⟨h4, h5⟩ := colon_split _ _ _ _
    (fun c hc => mem_intRepr_ne_colon _ c hc)
    (fun c hc => mem_intRepr_ne_colon _ c hc) h3
  exact ⟨intRepr_injective _ _ (String.ext h4), String.ext h5⟩

/-- Modelled from the spec: application-level values handled by the
serialization codec.  `unpicklable` stands for the test suite's
`Unpickable` object whose `__getstate__` raises `pickle.PickleError`. -/
inductive PyVal where
  | int (n : Int)
  | str (s : String)
  | obj (tag : String)
  | unpicklable
  deriving DecidableEq, Repr

/-- Modelled from the spec: failure of the general object serializer. -/
inductive SerErr where
  | pickleError
  deriving DecidableEq, Repr

/-- Modelled from the spec: the stored binary payload, tagged either as a
raw compactly-representable integer or as a pickled object. -/
inductive Blob where
  | rawInt (n : Int)
  | pickled (v : PyVal)
  deriving DecidableEq, Repr

/-- Modelled from the spec: `encode(value) -> bytes` with the raw-integer
fast path; a value the serializer refuses propagates the serializer's own
error. -/
def encodeValue : PyVal → Except SerErr Blob
  | PyVal.int n => Except.ok (Blob.rawInt n)
  | PyVal.unpicklable => Except.error SerErr.pickleError
  | v => Except.ok (Blob.pickled v)

/-- Modelled from the spec: `decode(bytes) -> value`, dispatching on the
tag. -/
def decodeBlob : Blob → PyVal
  | Blob.rawInt n => PyVal.int n
  | Blob.pickled v => v

theorem decodeBlob_encodeValue (v : PyVal) (b : Blob)
    (h : encodeValue v = Except.ok b) : decodeBlob b = v := by
  match v with
  | PyVal.int n => simp [encodeValue] at h; rw [← h]; rfl
  | PyVal.str s => simp [encodeValue] at h; rw [← h]; rfl
  | PyVal.obj tag => simp [encodeValue] at h; rw [← h]; rfl
  | PyVal.unpicklable => simp [encodeValue] at h

/-- Modelled from the spec: an absolute expiration instant, with a
representable never-expires marker. -/
inductive Expiry where
  | forever
  | atTime (t : Int)
  deriving DecidableEq, Repr

/-- Thirty days in seconds: the threshold above which a timeout is read
as an absolute Unix timestamp. -/
def THIRTY_DAYS : Int := 60 * 60 * 24 * 30

/-- Modelled from the spec: `resolve(timeout, now)`; `None` means
forever, a non-positive timeout yields an instant already in the past,
a huge timeout is an absolute epoch time, otherwise `now + timeout`. -/
def resolveTimeout : Option Int → Int → Expiry
  | none, _ => Expiry.forever
  | some t, now =>
    if t ≤ 0 then Expiry.atTime (now - 1)
    else if THIRTY_DAYS < t then Expiry.atTime t
    else Expiry.atTime (now + t)

/-- Modelled from the spec: a row is live while `now < expires`; the
forever marker is never expired. -/
def isLive : Expiry → Int → Bool
  | Expiry.forever, _ => true
  | Expiry.atTime t, now => decide (now < t)

/-- Modelled from the spec: one stored cache row (`value`, `expires`). -/
structure Row where
  value : Blob
  expires : Expiry
  deriving DecidableEq, Repr

/-- The backing table: an association list from physical key to row,
`cache_key` being the primary key. -/
abbrev Table := List (String × Row)

/-- Primary-key SELECT on the table. -/
def lookupRow (t : Table) (k : String) : Option Row :=
  (t.find? (fun e => e.1 == k)).map (fun e => e.2)

/-- DELETE of every row with the given key. -/
def deleteRow (t : Table) (k : String) : Table :=
  t.filter (fun e => !(e.1 == k))

/-- Atomic upsert: replace any row under the key with the new row. -/
def insertRow (t : Table) (k : String) (r : Row) : Table :=
  deleteRow t k ++ [(k, r)]

/-- Whether a live (unexpired) row exists under a physical key. -/
def hasLiveRow (t : Table) (k : String) (now : Int) : Bool :=
  match lookupRow t k with
  | some r => isLive r.expires now
  | none => false

theorem lookupRow_delete_self (t : Table) (k : String) :
    lookupRow (deleteRow t k) k = none := by
  induction t with
  | nil => rfl
  | cons e t ih =>
    by_cases he : e.1 == k
    · simp only [deleteRow, List.filter_cons, he, Bool.not_true] at *
      exact ih
    · simp [deleteRow, lookupRow, List.filter_cons, List.find?, he]

theorem lookupRow_delete_ne (t : Table) (k k' : String) (h : k' ≠ k) :
    lookupRow (deleteRow t k) k' = lookupRow t k' := by
  induction t with
  | nil => rfl
  | cons e t ih =>
    by_cases he : e.1 == k
    · have he' : (e.1 == k') = false := by
        have : e.1 = k := by simpa using he
        simp [this, h.symm]
      simp only [deleteRow, List.filter_cons, he, Bool.not_true, lookupRow,
        List.find?] at *
      simp [he'] at *
      exact ih
    · simp only [deleteRow, List.filter_cons, he, Bool.not_false, lookupRow,
        List.find?] at *
      by_cases he' : e.1 == k'
      · simp [he']
      · simp [he'] at *
        exact ih

theorem lookupRow_insert_self (t : Table) (k : String) (r : Row) :
    lookupRow (insertRow t k r) k = some r := by
  induction t with
  | nil => simp [insertRow, deleteRow, lookupRow, List.find?]
  | cons e t ih =>
    by_cases he : e.1 == k
    · simp only [insertRow, deleteRow, List.filter_cons, he, Bool.not_true] at *
      exact ih
    · simp [insertRow, deleteRow, lookupRow, List.filter_cons, List.find?, he]

theorem lookupRow_insert_ne (t : Table) (k k' : String) (r : Row) (h : k' ≠ k) :
    lookupRow (insertRow t k r) k' = lookupRow t k' := by
  have hk : (k == k') = false := by simp [Ne.symm h]
  induction t with
  | nil => simp [insertRow, deleteRow, lookupRow, List.find?, hk]
  | cons e t ih =>
    by_cases he : e.1 == k
    · have he1 : e.1 = k := by simpa using he
      have he' : (e.1 == k') = false := by simp [he1, Ne.symm h]
      simp only [insertRow, deleteRow, List.filter_cons, he, Bool.not_true,
        lookupRow, List.find?] at *
      simp [he'] at *
      exact ih
    · simp only [insertRow, deleteRow, List.filter_cons, he, Bool.not_false,
        List.cons_append, lookupRow, List.find?] at *
      by_cases he' : e.1 == k'
      · simp [he']
      · simp [he'] at *
        exact ih

/-- Physical keys are limited to 250 bytes of storage. -/
def MAX_KEY_LENGTH : Nat := 250

/-- Modelled from the spec: the error taxonomy of section 7 (`KeyTooLong`,
`NotFound`, `SerializationFailure`; a non-integer value under `incr` is
the engine-side value error). -/
inductive CacheErr where
  | keyTooLong (k : String)
  | serialization (e : SerErr)
  | notFound
  | valueNotInt
  deriving DecidableEq, Repr

/-- Modelled from the spec: `get` - single SELECT on the physical key,
filtering on a live expiry; a miss returns `none` (the engine maps it to
the caller's default) without side effects. -/
def cache_get (cfg : CacheConfig) (t : Table) (now : Int) (key : String)
    (version : Option Int) : Option PyVal :=
  match lookupRow t (make_key cfg version key) with
  | some r => if isLive r.expires now then some (decodeBlob r.value) else none
  | none => none

/-- Cull step (a): delete all rows whose `expires` lies in the past. -/
def filterExpired (t : Table) (now : Int) : Table :=
  t.filter (fun e => isLive e.2.expires now)

/-- Cull step (b): evict rows down to the `max_entries` cap.  The
pseudo-random choice of the evicted subset is abstracted by a
deterministic truncation; only its size matters to the spec. -/
def cullTable (t : Table) (max_entries : Nat) : Table :=
  t.take max_entries

/-- Modelled from the spec: `maybe_cull()` - with probability
`1/cull_frequency` (the random draw is the explicit `draw` argument;
`cull_frequency = 0` disables culling entirely) delete expired rows and,
if the row count still exceeds `max_entries`, evict down to the cap. -/
def maybe_cull (cfg : CacheConfig) (t : Table) (now : Int) (draw : Nat) : Table :=
  if cfg.cull_frequency = 0 then t
  else if draw % cfg.cull_frequency = 0 then
    if cfg.max_entries < (filterExpired t now).length
    then cullTable (filterExpired t now) cfg.max_entries
    else filterExpired t now
  else t

/-- Modelled from the spec: `set` - validate the physical key length,
encode the value (propagating the codec's failure), then a single atomic
upsert; the cull policy is triggered after the write. -/
def cache_set (cfg : CacheConfig) (t : Table) (now : Int) (key : String)
    (v : PyVal) (timeout : Option Int) (version : Option Int) (draw : Nat) :
    Except CacheErr Table :=
  if MAX_KEY_LENGTH < (make_key cfg version key).utf8ByteSize
  then Except.error (CacheErr.keyTooLong (make_key cfg version key))
  else match encodeValue v with
    | Except.error e => Except.error (CacheErr.serialization e)
    | Except.ok b =>
      Except.ok (maybe_cull cfg (insertRow t (make_key cfg version key)
        ⟨b, resolveTimeout timeout now⟩) now draw)

/-- Modelled from the spec: `add` - an atomic conditional upsert relying
on the uniqueness invariant: the insert succeeds exactly when no live row
exists under the physical key (absent key, or existing row already
expired); a live row makes `add` return `False` and leaves the table
untouched. -/
def cache_add (cfg : CacheConfig) (t : Table) (now : Int) (key : String)
    (v : PyVal) (timeout : Option Int) (version : Option Int) :
    Except CacheErr (Bool × Table) :=
  if MAX_KEY_LENGTH < (make_key cfg version key).utf8ByteSize
  then Except.error (CacheErr.keyTooLong (make_key cfg version key))
  else match encodeValue v with
    | Except.error e => Except.error (CacheErr.serialization e)
    | Except.ok b =>
      if hasLiveRow t (make_key cfg version key) now then Except.ok (false, t)
      else Except.ok (true, insertRow t (make_key cfg version key)
        ⟨b, resolveTimeout timeout now⟩)

/-- Modelled from the spec: preparation of the rows of a bulk `set_many`
upsert (key validation and value encoding for every entry). -/
def encodeEntries (cfg : CacheConfig) (now : Int) (timeout : Option Int)
    (version : Option Int) : List (String × PyVal) →
    Except CacheErr (List (String × Row))
  | [] => Except.ok []
  | kv :: rest =>
    if MAX_KEY_LENGTH < (make_key cfg version kv.1).utf8ByteSize
    then Except.error (CacheErr.keyTooLong (make_key cfg version kv.1))
    else match encodeValue kv.2 with
      | Except.error e => Except.error (CacheErr.serialization e)
      | Except.ok b =>
        match encodeEntries cfg now timeout version rest with
        | Except.error e2 => Except.error e2
        | Except.ok rs => Except.ok ((make_key cfg version kv.1,
            ⟨b, resolveTimeout timeout now⟩) :: rs)

/-- Bulk upsert of prepared rows. -/
def insertMany (t : Table) : List (String × Row) → Table
  | [] => t
  | kr :: rest => insertMany (insertRow t kr.1 kr.2) rest

/-- Modelled from the spec: `set_many` - one bulk upsert of the whole
mapping, then one cull trigger. -/
def cache_set_many (cfg : CacheConfig) (t : Table) (now : Int)
    (kvs : List (String × PyVal)) (timeout : Option Int)
    (version : Option Int) (draw : Nat) : Except CacheErr Table :=
  match encodeEntries cfg now timeout version kvs with
  | Except.error e => Except.error e
  | Except.ok rows => Except.ok (maybe_cull cfg (insertMany t rows) now draw)

/-- Bulk SELECT of the live rows whose physical key is in the request. -/
def selectRows (t : Table) (phys : List String) (now : Int) : Table :=
  t.filter (fun e => phys.contains e.1 && isLive e.2.expires now)

/-- Modelled from the spec: `get_many` - one bulk SELECT over the
requested physical keys filtering live rows, then each returned row is
mapped back to the logical key that produced its physical key; absent or
expired keys are simply omitted, never an error. -/
def cache_get_many (cfg : CacheConfig) (t : Table) (now : Int)
    (keys : List String) (version : Option Int) : List (String × PyVal) :=
  (selectRows t (keys.map (make_key cfg version)) now).filterMap (fun e =>
    (keys.find? (fun k => make_key cfg version k == e.1)).map
      (fun k => (k, decodeBlob e.2.value)))

/-- Modelled from the spec: `incr` - one atomic arithmetic UPDATE
returning the new value; fails with the `KeyError`-equivalent when the
key is absent or expired, never creating a row. -/
def cache_incr (cfg : CacheConfig) (t : Table) (now : Int) (key : String)
    (delta : Int) (version : Option Int) : Except CacheErr (Int × Table) :=
  match lookupRow t (make_key cfg version key) with
  | some row =>
    if isLive row.expires now then
      match row.value with
      | Blob.rawInt m =>
        Except.ok (m + delta, insertRow t (make_key cfg version key)
          ⟨Blob.rawInt (m + delta), row.expires⟩)
      | Blob.pickled _ => Except.error CacheErr.valueNotInt
    else Except.error CacheErr.notFound
  | none => Except.error CacheErr.notFound

/-- Modelled from the spec: `incr_version` - read value and expiry under
the old version's physical key, write them under the new version's key
(overwriting any row there - a deliberate move), delete the old row;
fails with the not-found error when the source is absent or expired. -/
def cache_incr_version (cfg : CacheConfig) (t : Table) (now : Int)
    (key : String) (delta : Int) (version : Option Int) :
    Except CacheErr (Int × Table) :=
  match lookupRow t (make_key cfg (some (version.getD cfg.version)) key) with
  | some row =>
    if isLive row.expires now then
      Except.ok (version.getD cfg.version + delta,
        deleteRow
          (insertRow t (make_key cfg (some (version.getD cfg.version + delta)) key)
            row)
          (make_key cfg (some (version.getD cfg.version)) key))
    else Except.error CacheErr.notFound
  | none => Except.error CacheErr.notFound

/-- Modelled from the spec: `decr_version` is `incr_version` with the
delta negated. -/
def cache_decr_version (cfg : CacheConfig) (t : Table) (now : Int)
    (key : String) (delta : Int) (version : Option Int) :
    Except CacheErr (Int × Table) :=
  cache_incr_version cfg t now key (-delta) version

/-! ## PTFingerprintThread (src/django_mysql/utils.py) -/

/-- The worker thread object with its input and output queues; queue and
thread objects are identified by allocation ids. -/
structure PTThread where
  id : Nat
  in_queue : Nat
  out_queue : Nat
  deriving DecidableEq, Repr

/-- Process-wide class state of `PTFingerprintThread`: the registered
singleton slot `the_thread`, plus an allocation counter standing for the
freshness of newly created thread and queue objects. -/
structure PTState where
  the_thread : Option PTThread
  next_id : Nat
  deriving DecidableEq, Repr

/-- Idle lifetime of the worker in seconds
(`PTFingerprintThread.PROCESS_LIFETIME`). -/
def PROCESS_LIFETIME : Nat := 60

/-- `PTFingerprintThread.get_thread`: under the class lock, when no
thread is registered, create a fresh input queue, a fresh output queue
and a fresh thread, start it and store it in the singleton slot; return
the registered thread. -/
def get_thread (s : PTState) : PTThread × PTState :=
  match s.the_thread with
  | some t => (t, s)
  | none => (⟨s.next_id, s.next_id + 1, s.next_id + 2⟩,
      ⟨some ⟨s.next_id, s.next_id + 1, s.next_id + 2⟩, s.next_id + 3⟩)

/-- Observable outcome of one `self.in_queue.get(timeout=PROCESS_LIFETIME)`
call inside `PTFingerprintThread.run`: either a query arrived within
`PROCESS_LIFETIME` seconds, or the call raised `Empty`. -/
inductive RunEvent where
  | received (query : String)
  | timedOut
  deriving DecidableEq, Repr

/-- One iteration of the loop in `PTFingerprintThread.run`: a received
query is passed to the subprocess and the loop continues; a timeout (no
input for `PROCESS_LIFETIME` seconds) exits the loop, after which the
thread clears the singleton slot (`the_thread = None`) and terminates.
Returns the new class state and whether the thread keeps running. -/
def run_step (s : PTState) (e : RunEvent) : PTState × Bool :=
  match e with
  | RunEvent.received _ => (s, true)
  | RunEvent.timedOut => (⟨none, s.next_id⟩, false)

/-! ## KeyTransform.compile_json_path
(src/django_mysql/models/fields/json.py) -/

/-- Whitespace accepted around the argument of Python `int(str)`. -/
def isPySpace (c : Char) : Bool :=
  c == ' ' || c == '\t' || c == '\n' || c == '\r' || c == '\x0b' || c == '\x0c'

/-- ASCII decimal digit test. -/
def isAsciiDigit (c : Char) : Bool :=
  decide ('0' ≤ c) && decide (c ≤ '9')

/-- Python `int(str)` as used by `compile_json_path`: optional
surrounding whitespace, an optional sign, then one or more decimal
digits; anything else raises `ValueError`, returned here as `none`. -/
def pyInt (s : String) : Option Int :=
  let cs := ((s.data.dropWhile isPySpace).reverse.dropWhile isPySpace).reverse
  match cs with
  | [] => none
  | '-' :: rest =>
    if !rest.isEmpty && rest.all isAsciiDigit
    then some (-(listVal rest : Int)) else none
  | '+' :: rest =>
    if !rest.isEmpty && rest.all isAsciiDigit
    then some ((listVal rest : Int)) else none
  | rest =>
    if rest.all isAsciiDigit then some ((listVal rest : Int)) else none

/-- Body of the loop in `KeyTransform.compile_json_path`: try
`num = int(key_transform)` and append `'[{0}]'.format(num)`; on
`ValueError` append `'.'` and then the key. -/
def compileStep (path : List String) (key_transform : String) : List String :=
  match pyInt key_transform with
  | some num => path ++ ["[" ++ intRepr num ++ "]"]
  | none => (path ++ ["."]) ++ [key_transform]

/-- `KeyTransform.compile_json_path`: start from `['$']`, run the loop
over the key transforms, and `''.join` the pieces. -/
def compile_json_path (key_transforms : List String) : String :=
  String.join (key_transforms.foldl compileStep ["$"])

/-- Declarative per-key JSON path segment, following the claim's words:
`[n]` for a key parsing as the integer `n`, `.` concatenated with the
key otherwise. -/
def jsonPathSegment (k : String) : String :=
  match pyInt k with
  | some n => "[" ++ intRepr n ++ "]"
  | none => "." ++ k

theorem join_append (l1 l2 : List String) :
    String.join (l1 ++ l2) = String.join l1 ++ String.join l2 := by
  apply String.ext
  simp

theorem compile_json_path_loop (ks : List String) : ∀ acc : List String,
    String.join (ks.foldl compileStep acc) =
      String.join acc ++ String.join (ks.map jsonPathSegment) := by
  induction ks with
  | nil =>
    intro acc
    simp [String.join]
  | cons k ks ih =>
    intro acc
    rw [List.foldl_cons, ih, List.map_cons]
    unfold compileStep jsonPathSegment
    match pyInt k with
    | some n =>
      simp only [join_append]
      apply String.ext
      simp
    | none =>
      simp only [join_append]
      apply String.ext
      simp

/-- C10: for every list of key names, `KeyTransform.compile_json_path`
returns `'$'` followed by, for each key in order, `'[n]'` when the key
parses as the integer `n` under Python `int`, and `'.'` concatenated
with the key otherwise.  The embedding is a total deterministic function
(the only exception the source can raise, `ValueError` from `int`, is
caught by the loop itself). -/
theorem keytransform_compile_json_path (ks : List String) :
    compile_json_path ks = "$" ++ String.join (ks.map jsonPathSegment) := by
  rw [compile_json_path, compile_json_path_loop]
  apply String.ext
  simp

/-- C9: `PTFingerprintThread.get_thread` is a lazily-started process-wide
singleton: a first call (empty slot) creates a fresh thread with fresh
input and output queues, registers it, and returns it; any call while a
thread is registered returns that same thread and changes nothing; and
the worker loop, upon receiving no input for `PROCESS_LIFETIME = 60`
seconds, stops running and clears the singleton slot. -/
theorem pt_fingerprint_singleton (s : PTState) (t : PTThread) :
    (s.the_thread = none →
      get_thread s = (⟨s.next_id, s.next_id + 1, s.next_id + 2⟩,
        ⟨some ⟨s.next_id, s.next_id + 1, s.next_id + 2⟩, s.next_id + 3⟩) ∧
      (get_thread s).2.the_thread = some (get_thread s).1) ∧
    (s.the_thread = some t → get_thread s = (t, s)) ∧
    (run_step s RunEvent.timedOut = (⟨none, s.next_id⟩, false) ∧
      PROCESS_LIFETIME = 60) := by
  refine ⟨fun h => ?_, fun h => ?_, rfl, rfl⟩
  · simp [get_thread, h]
  · simp [get_thread, h]

theorem pt_fingerprint_singleton_witness :
    (get_thread ⟨none, 0⟩ = (⟨0, 1, 2⟩, ⟨some ⟨0, 1, 2⟩, 3⟩) ∧
      (get_thread ⟨none, 0⟩).2.the_thread = some (get_thread ⟨none, 0⟩).1) ∧
    get_thread ⟨some ⟨0, 1, 2⟩, 3⟩ = (⟨0, 1, 2⟩, ⟨some ⟨0, 1, 2⟩, 3⟩) :=
  ⟨(pt_fingerprint_singleton ⟨none, 0⟩ ⟨0, 1, 2⟩).1 rfl,
   (pt_fingerprint_singleton ⟨some ⟨0, 1, 2⟩, 3⟩ ⟨0, 1, 2⟩).2.1 rfl⟩

/-! ## Helper lemmas about the storage table -/

theorem mem_maybe_cull (cfg : CacheConfig) (t : Table) (now : Int) (draw : Nat)
    (e : String × Row) (h : e ∈ maybe_cull cfg t now draw) : e ∈ t := by
  simp only [maybe_cull, cullTable, filterExpired] at h
  split at h
  · exact h
  · split at h
    · split at h
      · exact (List.mem_filter.mp (List.take_subset _ _ h)).1
      · exact (List.mem_filter.mp h).1
    · exact h

theorem mem_insertRow_eq (t : Table) (k : String) (row : Row) (e : String × Row)
    (h : e ∈ insertRow t k row) (hk : e.1 = k) : e = (k, row) := by
  unfold insertRow deleteRow at h
  rcases List.mem_append.mp h with h1 | h1
  · have := (List.mem_filter.mp h1).2
    simp [hk] at this
  · simpa using h1

theorem lookupRow_mem (t : Table) (k : String) (r : Row)
    (h : lookupRow t k = some r) : (k, r) ∈ t := by
  unfold lookupRow at h
  match hf : t.find? (fun e => e.1 == k) with
  | none => rw [hf] at h; simp at h
  | some e =>
    rw [hf] at h
    simp only [Option.map_some', Option.some.injEq] at h
    have h1 := List.find?_some hf
    have h2 := List.mem_of_find?_eq_some hf
    have h3 : e.1 = k := by simpa using h1
    have h4 : e = (k, r) := by
      cases e
      simp_all
    rw [← h4]
    exact h2

theorem lookupRow_of_mem_nodup (t : Table) (k : String) (r : Row)
    (hnd : (t.map Prod.fst).Nodup) (h : (k, r) ∈ t) : lookupRow t k = some r := by
  induction t with
  | nil => simp at h
  | cons e t ih =>
    rw [List.map_cons, List.nodup_cons] at hnd
    rcases List.mem_cons.mp h with h1 | h1
    · rw [← h1]
      simp [lookupRow, List.find?]
    · have hek : (e.1 == k) = false := by
        rw [beq_eq_false_iff_ne]
        intro hek
        apply hnd.1
        rw [hek]
        exact List.mem_map_of_mem Prod.fst h1
      have ih2 := ih hnd.2 h1
      unfold lookupRow at ih2
      simp [lookupRow, List.find?, hek, ih2]

theorem lookup_cull_insert (cfg : CacheConfig) (t : Table) (now : Int)
    (draw : Nat) (k : String) (row r : Row)
    (h : lookupRow (maybe_cull cfg (insertRow t k row) now draw) k = some r) :
    r = row := by
  have h1 := lookupRow_mem _ _ _ h
  have h2 := mem_maybe_cull _ _ _ _ _ h1
  have h3 := mem_insertRow_eq _ _ _ _ h2 rfl
  have := (Prod.mk.injEq _ _ _ _).mp h3
  exact this.2

theorem isLive_past (now : Int) : isLive (Expiry.atTime (now - 1)) now = false := by
  simp [isLive]

theorem get_none_of_lookup_past (cfg : CacheConfig) (u : Table) (now : Int)
    (k : String) (ver : Option Int)
    (h : ∀ r, lookupRow u (make_key cfg ver k) = some r →
      r.expires = Expiry.atTime (now - 1)) :
    cache_get cfg u now k ver = none := by
  unfold cache_get
  match hl : lookupRow u (make_key cfg ver k) with
  | none => rfl
  | some r =>
    show (if isLive r.expires now = true then some (decodeBlob r.value) else none)
      = none
    rw [h r hl, isLive_past]
    simp

/-! ## Claim theorems for the cache engine -/

theorem encodeEntries_singleton_ok (cfg : CacheConfig) (now : Int)
    (timeout ver : Option Int) (k : String) (v : PyVal)
    (rows : List (String × Row))
    (h : encodeEntries cfg now timeout ver [(k, v)] = Except.ok rows) :
    ∃ b, encodeValue v = Except.ok b ∧
      rows = [(make_key cfg ver k, ⟨b, resolveTimeout timeout now⟩)] := by
  unfold encodeEntries at h
  by_cases hc : MAX_KEY_LENGTH < (make_key cfg ver k).utf8ByteSize
  · rw [if_pos hc] at h
    simp at h
  · rw [if_neg hc] at h
    split at h
    · simp at h
    · rename_i b he
      rw [show encodeEntries cfg now timeout ver [] = Except.ok [] from rfl] at h
      rw [Except.ok.injEq] at h
      exact ⟨b, he, h.symm⟩

/-- C4: a write with `timeout <= 0` resolves to an expiration instant
already in the past, so a subsequent `get` of the key returns the
default (`none`): via `set`, via a succeeding `add` (one that performed
its write - a `False` add writes nothing), and via `set_many`. -/
theorem mysql_cache_zero_timeout (cfg : CacheConfig) (t t1 t2 t3 : Table)
    (now : Int) (k : String) (v : PyVal) (ver : Option Int) (draw : Nat) :
    (cache_set cfg t now k v (some 0) ver draw = Except.ok t1 →
      cache_get cfg t1 now k ver = none) ∧
    (cache_add cfg t now k v (some 0) ver = Except.ok (true, t2) →
      cache_get cfg t2 now k ver = none) ∧
    (cache_set_many cfg t now [(k, v)] (some 0) ver draw = Except.ok t3 →
      cache_get cfg t3 now k ver = none) := by
  have hres : resolveTimeout (some 0) now = Expiry.atTime (now - 1) := by
    simp [resolveTimeout]
  refine ⟨fun hs => ?_, fun ha => ?_, fun hm => ?_⟩
  · unfold cache_set at hs
    by_cases hc : MAX_KEY_LENGTH < (make_key cfg ver k).utf8ByteSize
    · rw [if_pos hc] at hs
      simp at hs
    · rw [if_neg hc] at hs
      split at hs
      · simp at hs
      · rw [Except.ok.injEq] at hs
        apply get_none_of_lookup_past
        intro r hr
        rw [← hs] at hr
        rw [lookup_cull_insert _ _ _ _ _ _ _ hr, hres]
  · unfold cache_add at ha
    by_cases hc : MAX_KEY_LENGTH < (make_key cfg ver k).utf8ByteSize
    · rw [if_pos hc] at ha
      simp at ha
    · rw [if_neg hc] at ha
      split at ha
      · simp at ha
      · split at ha
        · simp at ha
        · rw [Except.ok.injEq, Prod.mk.injEq] at ha
          apply get_none_of_lookup_past
          intro r hr
          rw [← ha.2, lookupRow_insert_self, Option.some.injEq] at hr
          rw [← hr, hres]
  · unfold cache_set_many at hm
    cases hee : encodeEntries cfg now (some 0) ver [(k, v)] with
    | error e =>
      rw [hee] at hm
      simp at hm
    | ok rows =>
      rw [hee, Except.ok.injEq] at hm
      obtain ⟨b, hb⟩ := encodeEntries_singleton_ok cfg now (some 0) ver k v rows hee
      rw [hb.2] at hm
      apply get_none_of_lookup_past
      intro r hr
      rw [← hm] at hr
      rw [show insertMany t [(make_key cfg ver k,
        (⟨b, resolveTimeout (some 0) now⟩ : Row))] =
        insertRow t (make_key cfg ver k) ⟨b, resolveTimeout (some 0) now⟩ from rfl] at hr
      rw [lookup_cull_insert _ _ _ _ _ _ _ hr, hres]

theorem mysql_cache_zero_timeout_witness :
    cache_get ⟨"", 1, 30, 0⟩
      [(":1:k", ⟨Blob.rawInt 5, Expiry.atTime 99⟩)] 100 "k" none = none :=
  (mysql_cache_zero_timeout ⟨"", 1, 30, 0⟩ []
    [(":1:k", ⟨Blob.rawInt 5, Expiry.atTime 99⟩)]
    [(":1:k", ⟨Blob.rawInt 5, Expiry.atTime 99⟩)]
    [(":1:k", ⟨Blob.rawInt 5, Expiry.atTime 99⟩)]
    100 "k" (PyVal.int 5) none 0).1 rfl

/-- C6: a logical key whose derived physical key exceeds the 250-byte
storage limit makes `set` fail with the `KeyTooLong` hard error; the
error result carries no table, so nothing - in particular no truncated
key - is ever stored. -/
theorem mysql_cache_key_too_long (cfg : CacheConfig) (t : Table) (now : Int)
    (k : String) (v : PyVal) (timeout : Option Int) (ver : Option Int)
    (draw : Nat)
    (h : MAX_KEY_LENGTH < (make_key cfg ver k).utf8ByteSize) :
    cache_set cfg t now k v timeout ver draw =
      Except.error (CacheErr.keyTooLong (make_key cfg ver k)) := by
  simp [cache_set, h]

set_option maxRecDepth 4000 in
theorem mysql_cache_key_too_long_witness :
    cache_set ⟨"", 1, 30, 0⟩ [] 0 (String.mk (List.replicate 251 'a'))
      (PyVal.int 1) none none 0 =
      Except.error (CacheErr.keyTooLong
        (make_key ⟨"", 1, 30, 0⟩ none (String.mk (List.replicate 251 'a')))) :=
  mysql_cache_key_too_long ⟨"", 1, 30, 0⟩ [] 0
    (String.mk (List.replicate 251 'a')) (PyVal.int 1) none none 0 (by decide)

/-- C7: a value whose serialization fails makes `set` and `add`
propagate the serializer's own error to the caller unchanged (wrapped in
the engine's `SerializationFailure` arm with the codec error intact);
the error result carries no table, so no silent no-op occurs. -/
theorem mysql_cache_serialization_error (cfg : CacheConfig) (t : Table)
    (now : Int) (k : String) (v : PyVal) (timeout : Option Int)
    (ver : Option Int) (draw : Nat) (e : SerErr)
    (hk : (make_key cfg ver k).utf8ByteSize ≤ MAX_KEY_LENGTH)
    (he : encodeValue v = Except.error e) :
    cache_set cfg t now k v timeout ver draw =
      Except.error (CacheErr.serialization e) ∧
    cache_add cfg t now k v timeout ver =
      Except.error (CacheErr.serialization e) := by
  have h2 : ¬ MAX_KEY_LENGTH < (make_key cfg ver k).utf8ByteSize := by omega
  constructor
  · simp [cache_set, h2, he]
  · simp [cache_add, h2, he]

theorem mysql_cache_serialization_error_witness :
    cache_set ⟨"", 1, 30, 0⟩ [] 0 "k" PyVal.unpicklable none none 0 =
      Except.error (CacheErr.serialization SerErr.pickleError) ∧
    cache_add ⟨"", 1, 30, 0⟩ [] 0 "k" PyVal.unpicklable none none =
      Except.error (CacheErr.serialization SerErr.pickleError) :=
  mysql_cache_serialization_error ⟨"", 1, 30, 0⟩ [] 0 "k" PyVal.unpicklable
    none none 0 SerErr.pickleError (by decide) rfl

/-- Modelled from the spec: a sequence of `set` writes applied in order
(an erroring write leaves the table unchanged), as in the culling test
scenario that inserts 40 distinct keys. -/
def applyWrites (cfg : CacheConfig) (now : Int) (draw : Nat)
    (timeout : Option Int) : Table → List (String × PyVal) → Table
  | t, [] => t
  | t, kv :: rest =>
    match cache_set cfg t now kv.1 kv.2 timeout none draw with
    | Except.ok t2 => applyWrites cfg now draw timeout t2 rest
    | Except.error _ => applyWrites cfg now draw timeout t rest

theorem cache_set_length_le (cfg : CacheConfig) (t t2 : Table) (now : Int)
    (k : String) (v : PyVal) (timeout : Option Int) (ver : Option Int)
    (draw : Nat) (h1 : cfg.cull_frequency = 1)
    (hs : cache_set cfg t now k v timeout ver draw = Except.ok t2) :
    t2.length ≤ cfg.max_entries := by
  unfold cache_set at hs
  by_cases hc : MAX_KEY_LENGTH < (make_key cfg ver k).utf8ByteSize
  · rw [if_pos hc] at hs
    simp at hs
  · rw [if_neg hc] at hs
    split at hs
    · simp at hs
    · rw [Except.ok.injEq] at hs
      rw [← hs]
      simp only [maybe_cull, cullTable, h1, Nat.mod_one]
      rw [if_neg Nat.one_ne_zero, if_pos trivial]
      split
      · rw [List.length_take]
        omega
      · omega

/-- C8: with `max_entries = 30` and `cull_frequency = 1` (cull on every
write) the table never exceeds 30 rows across any sequence of `set`
writes - in particular after inserting 40 distinct keys; and
`cull_frequency = 0` disables culling entirely (`maybe_cull` is the
identity). -/
theorem mysql_cache_cull_bound (cfg : CacheConfig) (now : Int) (draw : Nat)
    (timeout : Option Int) (t : Table) (ws : List (String × PyVal))
    (h30 : cfg.max_entries = 30) (h1 : cfg.cull_frequency = 1)
    (ht : t.length ≤ 30) :
    (applyWrites cfg now draw timeout t ws).length ≤ 30 ∧
    (∀ (cfg2 : CacheConfig) (u : Table) (now2 : Int) (draw2 : Nat),
      cfg2.cull_frequency = 0 → maybe_cull cfg2 u now2 draw2 = u) := by
  constructor
  · induction ws generalizing t with
    | nil => exact ht
    | cons kv rest ih =>
      unfold applyWrites
      match hs : cache_set cfg t now kv.1 kv.2 timeout none draw with
      | Except.ok t2 =>
        have := cache_set_length_le cfg t t2 now kv.1 kv.2 timeout none draw h1 hs
        rw [h30] at this
        exact ih t2 this
      | Except.error e => exact ih t ht
  · intro cfg2 u now2 draw2 h0
    simp [maybe_cull, h0]

theorem mysql_cache_cull_bound_witness :
    (applyWrites ⟨"", 1, 30, 1⟩ 0 0 (some 300) []
      ((List.range 40).map (fun i => (natRepr i, PyVal.int i)))).length ≤ 30 :=
  (mysql_cache_cull_bound ⟨"", 1, 30, 1⟩ 0 0 (some 300) []
    ((List.range 40).map (fun i => (natRepr i, PyVal.int i)))
    rfl rfl (by decide)).1

/-- C1: `add` returns `True` exactly when no live row exists under the
key's physical key - the key is absent or its row is expired - and then
stores the new value under the key; when a live row exists, `add`
returns `False` with the table unchanged, so a subsequent `get` still
returns the previously stored value. -/
theorem mysql_cache_add (cfg : CacheConfig) (t : Table) (now : Int)
    (k : String) (v1 v2 : PyVal) (timeout : Option Int) (ver : Option Int)
    (b1 b2 : Blob)
    (hk : (make_key cfg ver k).utf8ByteSize ≤ MAX_KEY_LENGTH)
    (h1 : encodeValue v1 = Except.ok b1)
    (h2 : encodeValue v2 = Except.ok b2) :
    (hasLiveRow t (make_key cfg ver k) now = false →
      cache_add cfg t now k v1 timeout ver =
        Except.ok (true, insertRow t (make_key cfg ver k)
          ⟨b1, resolveTimeout timeout now⟩) ∧
      lookupRow (insertRow t (make_key cfg ver k)
          ⟨b1, resolveTimeout timeout now⟩) (make_key cfg ver k) =
        some ⟨b1, resolveTimeout timeout now⟩ ∧
      decodeBlob b1 = v1) ∧
    (hasLiveRow t (make_key cfg ver k) now = true →
      cache_add cfg t now k v2 timeout ver = Except.ok (false, t) ∧
      (∀ r, lookupRow t (make_key cfg ver k) = some r →
        cache_get cfg t now k ver = some (decodeBlob r.value))) := by
  have hc : ¬ MAX_KEY_LENGTH < (make_key cfg ver k).utf8ByteSize := by omega
  constructor
  · intro hl
    refine ⟨?_, lookupRow_insert_self _ _ _, decodeBlob_encodeValue _ _ h1⟩
    simp [cache_add, hc, h1, hl]
  · intro hl
    constructor
    · simp [cache_add, hc, h2, hl]
    · intro r hr
      have hlive : isLive r.expires now = true := by
        unfold hasLiveRow at hl
        rw [hr] at hl
        exact hl
      simp [cache_get, hr, hlive]

theorem mysql_cache_add_witness :
    (cache_add ⟨"", 1, 30, 0⟩ [] 100 "k" (PyVal.int 7) none none =
      Except.ok (true, insertRow [] (make_key ⟨"", 1, 30, 0⟩ none "k")
        ⟨Blob.rawInt 7, resolveTimeout none 100⟩) ∧
      lookupRow (insertRow [] (make_key ⟨"", 1, 30, 0⟩ none "k")
          ⟨Blob.rawInt 7, resolveTimeout none 100⟩)
        (make_key ⟨"", 1, 30, 0⟩ none "k") =
        some ⟨Blob.rawInt 7, resolveTimeout none 100⟩ ∧
      decodeBlob (Blob.rawInt 7) = PyVal.int 7) ∧
    cache_add ⟨"", 1, 30, 0⟩ [(":1:k", ⟨Blob.rawInt 7, Expiry.forever⟩)] 100 "k"
      (PyVal.int 8) none none =
      Except.ok (false, [(":1:k", ⟨Blob.rawInt 7, Expiry.forever⟩)]) :=
  ⟨(mysql_cache_add ⟨"", 1, 30, 0⟩ [] 100 "k" (PyVal.int 7) (PyVal.int 8)
      none none (Blob.rawInt 7) (Blob.rawInt 8) (by decide) rfl rfl).1 rfl,
   ((mysql_cache_add ⟨"", 1, 30, 0⟩ [(":1:k", ⟨Blob.rawInt 7, Expiry.forever⟩)]
      100 "k" (PyVal.int 7) (PyVal.int 8) none none (Blob.rawInt 7)
      (Blob.rawInt 8) (by decide) rfl rfl).2 rfl).1⟩

/-- C2: `incr` on a live row holding the raw integer `m` returns
`m + delta` and persists it - a subsequent `get` returns `m + delta`
(the row keeps its expiry); on a key that is absent or whose row is
expired it fails with the `NotFound` error, whose error result carries
no table, so no row is created. -/
theorem mysql_cache_incr (cfg : CacheConfig) (t : Table) (now : Int)
    (k : String) (delta m : Int) (ver : Option Int) (exp : Expiry)
    (h : lookupRow t (make_key cfg ver k) = some ⟨Blob.rawInt m, exp⟩)
    (hl : isLive exp now = true) :
    cache_incr cfg t now k delta ver =
      Except.ok (m + delta, insertRow t (make_key cfg ver k)
        ⟨Blob.rawInt (m + delta), exp⟩) ∧
    cache_get cfg (insertRow t (make_key cfg ver k)
      ⟨Blob.rawInt (m + delta), exp⟩) now k ver =
      some (PyVal.int (m + delta)) ∧
    (∀ u : Table, hasLiveRow u (make_key cfg ver k) now = false →
      cache_incr cfg u now k delta ver = Except.error CacheErr.notFound) := by
  refine ⟨?_, ?_, ?_⟩
  · simp [cache_incr, h, hl]
  · simp [cache_get, lookupRow_insert_self, hl, decodeBlob]
  · intro u hu
    unfold cache_incr
    match hlu : lookupRow u (make_key cfg ver k) with
    | none => rfl
    | some r =>
      have : isLive r.expires now = false := by
        unfold hasLiveRow at hu
        rw [hlu] at hu
        exact hu
      simp [this]

theorem mysql_cache_incr_witness :
    cache_incr ⟨"", 1, 30, 0⟩ [(":1:a", ⟨Blob.rawInt 10, Expiry.forever⟩)]
      100 "a" 5 none =
      Except.ok (15, insertRow [(":1:a", ⟨Blob.rawInt 10, Expiry.forever⟩)]
        (make_key ⟨"", 1, 30, 0⟩ none "a") ⟨Blob.rawInt 15, Expiry.forever⟩) ∧
    cache_get ⟨"", 1, 30, 0⟩
      (insertRow [(":1:a", ⟨Blob.rawInt 10, Expiry.forever⟩)]
        (make_key ⟨"", 1, 30, 0⟩ none "a") ⟨Blob.rawInt 15, Expiry.forever⟩)
      100 "a" none = some (PyVal.int 15) :=
  ⟨(mysql_cache_incr ⟨"", 1, 30, 0⟩ [(":1:a", ⟨Blob.rawInt 10, Expiry.forever⟩)]
      100 "a" 5 10 none Expiry.forever rfl rfl).1,
   (mysql_cache_incr ⟨"", 1, 30, 0⟩ [(":1:a", ⟨Blob.rawInt 10, Expiry.forever⟩)]
      100 "a" 5 10 none Expiry.forever rfl rfl).2.1⟩

/-- C5: `get_many` returns a mapping containing exactly the requested
keys that have a live row, each mapped to its stored value; keys that
are absent or expired are omitted and never cause an error (the
operation is a total function).  Stated over any table satisfying its
primary-key invariant (no duplicate physical keys). -/
theorem mysql_cache_get_many (cfg : CacheConfig) (t : Table) (now : Int)
    (keys : List String) (ver : Option Int) (k : String) (v : PyVal)
    (hnd : (t.map Prod.fst).Nodup) :
    (k, v) ∈ cache_get_many cfg t now keys ver ↔
      k ∈ keys ∧ cache_get cfg t now k ver = some v := by
  unfold cache_get_many selectRows
  constructor
  · intro hmem
    obtain ⟨e, he, hmap⟩ := List.mem_filterMap.mp hmem
    obtain ⟨pk, r⟩ := e
    obtain ⟨k0, hfind, hpair⟩ := Option.map_eq_some'.mp hmap
    rw [Prod.mk.injEq] at hpair
    obtain ⟨hk0, hv⟩ := hpair
    have hb := List.find?_some hfind
    have hkey : make_key cfg ver k0 = pk := by simpa using hb
    have hk0mem : k0 ∈ keys := List.mem_of_find?_eq_some hfind
    obtain ⟨hmemt, hflags⟩ := List.mem_filter.mp he
    rw [Bool.and_eq_true] at hflags
    obtain ⟨hcont, hlive⟩ := hflags
    have hlk : lookupRow t pk = some r := lookupRow_of_mem_nodup t pk r hnd hmemt
    subst hk0
    refine ⟨hk0mem, ?_⟩
    unfold cache_get
    rw [hkey, hlk]
    simp only at hlive
    simp [hlive, hv]
  · rintro ⟨hkmem, hget⟩
    unfold cache_get at hget
    match hlk : lookupRow t (make_key cfg ver k) with
    | none =>
      rw [hlk] at hget
      simp at hget
    | some r =>
      simp only [hlk] at hget
      by_cases hlive : isLive r.expires now = true
      · rw [if_pos hlive, Option.some.injEq] at hget
        have hmemt : (make_key cfg ver k, r) ∈ t := lookupRow_mem _ _ _ hlk
        have hfs : (keys.find? (fun k2 =>
            make_key cfg ver k2 == make_key cfg ver k)).isSome :=
          List.find?_isSome.mpr ⟨k, hkmem, by simp⟩
        obtain ⟨k0, hfind⟩ := Option.isSome_iff_exists.mp hfs
        have hb2 := List.find?_some hfind
        have hk0eq : make_key cfg ver k0 = make_key cfg ver k := by simpa using hb2
        have hk0 : k0 = k := (make_key_injective cfg ver ver k0 k hk0eq).2
        apply List.mem_filterMap.mpr
        refine ⟨(make_key cfg ver k, r), ?_, ?_⟩
        · apply List.mem_filter.mpr
          refine ⟨hmemt, ?_⟩
          rw [Bool.and_eq_true]
          constructor
          · simp only [List.contains, List.elem_eq_mem, decide_eq_true_eq]
            exact List.mem_map_of_mem _ hkmem
          · simpa using hlive
        · show (keys.find? (fun k2 =>
              make_key cfg ver k2 == make_key cfg ver k)).map
            (fun k2 => (k2, decodeBlob r.value)) = some (k, v)
          rw [hfind, Option.map_some']
          rw [hk0, hget]
      · rw [if_neg hlive] at hget
        simp at hget

theorem mysql_cache_get_many_witness :
    cache_get_many ⟨"", 1, 30, 0⟩
      [(":1:a", ⟨Blob.rawInt 1, Expiry.forever⟩),
       (":1:b", ⟨Blob.rawInt 2, Expiry.forever⟩)] 100 ["a", "b", "c"] none =
      [("a", PyVal.int 1), ("b", PyVal.int 2)] ∧
    ("a", PyVal.int 1) ∈ cache_get_many ⟨"", 1, 30, 0⟩
      [(":1:a", ⟨Blob.rawInt 1, Expiry.forever⟩),
       (":1:b", ⟨Blob.rawInt 2, Expiry.forever⟩)] 100 ["a", "b", "c"] none ∧
    cache_set_many ⟨"", 1, 30, 0⟩ [] 100 [("a", PyVal.int 1), ("b", PyVal.int 2)]
      none none 0 = Except.ok
      [(":1:a", ⟨Blob.rawInt 1, Expiry.forever⟩),
       (":1:b", ⟨Blob.rawInt 2, Expiry.forever⟩)] :=
  ⟨rfl,
   (mysql_cache_get_many ⟨"", 1, 30, 0⟩
      [(":1:a", ⟨Blob.rawInt 1, Expiry.forever⟩),
       (":1:b", ⟨Blob.rawInt 2, Expiry.forever⟩)] 100 ["a", "b", "c"] none
      "a" (PyVal.int 1) (by decide)).mpr ⟨by decide, rfl⟩,
   rfl⟩

theorem make_key_ne_of_version_ne (cfg : CacheConfig) (k : String) (a b : Int)
    (h : a ≠ b) : make_key cfg (some a) k ≠ make_key cfg (some b) k := by
  intro he
  exact h (by simpa using (make_key_injective cfg (some a) (some b) k k he).1)

/-- C3 (amended): for a key holding `v` at version `n`, provided no live
row exists at the destination version `n+1`, `incr_version` returns
`n+1`, after which `get` at version `n` returns the default and `get`
at version `n+1` returns `v`; `decr_version` then exactly inverts the
move, restoring the key's whole version-to-value mapping; and both
operations fail with the not-found error when the source key is absent
or expired.  (Without the proviso the original claim fails: the move
overwrites a live destination row, which `decr_version` cannot bring
back - see the counterexample.) -/
theorem mysql_cache_version_shift (cfg : CacheConfig) (t t1 t2 : Table)
    (now : Int) (k : String) (n r1 r2 : Int) (v : PyVal)
    (hsrc : cache_get cfg t now k (some n) = some v)
    (hdst : hasLiveRow t (make_key cfg (some (n + 1)) k) now = false)
    (hi : cache_incr_version cfg t now k 1 (some n) = Except.ok (r1, t1))
    (hd : cache_decr_version cfg t1 now k 1 (some (n + 1)) = Except.ok (r2, t2)) :
    r1 = n + 1 ∧ r2 = n ∧
    cache_get cfg t1 now k (some n) = none ∧
    cache_get cfg t1 now k (some (n + 1)) = some v ∧
    (∀ m : Int, cache_get cfg t2 now k (some m) = cache_get cfg t now k (some m)) ∧
    (∀ (u : Table) (k2 : String),
      hasLiveRow u (make_key cfg (some n) k2) now = false →
      cache_incr_version cfg u now k2 1 (some n) = Except.error CacheErr.notFound ∧
      cache_decr_version cfg u now k2 1 (some n) = Except.error CacheErr.notFound) := by
  have hne1 : make_key cfg (some (n + 1)) k ≠ make_key cfg (some n) k :=
    make_key_ne_of_version_ne cfg k (n + 1) n (by omega)
  unfold cache_get at hsrc
  match hlk : lookupRow t (make_key cfg (some n) k) with
  | none =>
    rw [hlk] at hsrc
    simp at hsrc
  | some row =>
    simp only [hlk] at hsrc
    by_cases hlive : isLive row.expires now = true
    case neg =>
      rw [if_neg hlive] at hsrc
      simp at hsrc
    case pos =>
      rw [if_pos hlive, Option.some.injEq] at hsrc
      unfold cache_incr_version at hi
      simp only [Option.getD_some] at hi
      simp only [hlk] at hi
      rw [if_pos hlive] at hi
      rw [Except.ok.injEq, Prod.mk.injEq] at hi
      obtain ⟨hr1, ht1⟩ := hi
      have hlkt1 : lookupRow t1 (make_key cfg (some (n + 1)) k) = some row := by
        rw [← ht1, lookupRow_delete_ne _ _ _ hne1]
        exact lookupRow_insert_self _ _ _
      unfold cache_decr_version cache_incr_version at hd
      simp only [Option.getD_some] at hd
      simp only [hlkt1] at hd
      rw [if_pos hlive] at hd
      have harith : n + 1 + -1 = n := by omega
      rw [harith] at hd
      rw [Except.ok.injEq, Prod.mk.injEq] at hd
      obtain ⟨hr2, ht2⟩ := hd
      refine ⟨hr1.symm, hr2.symm, ?_, ?_, ?_, ?_⟩
      · unfold cache_get
        rw [← ht1, lookupRow_delete_self]
      · unfold cache_get
        simp only [hlkt1]
        rw [if_pos hlive, hsrc]
      · intro m
        by_cases hm1 : m = n
        · subst hm1
          have hl2 : lookupRow t2 (make_key cfg (some m) k) = some row := by
            rw [← ht2, lookupRow_delete_ne _ _ _ (Ne.symm hne1)]
            exact lookupRow_insert_self _ _ _
          unfold cache_get
          simp only [hl2, hlk]
        · by_cases hm2 : m = n + 1
          · subst hm2
            unfold cache_get
            rw [← ht2, lookupRow_delete_self]
            unfold hasLiveRow at hdst
            match hlk1 : lookupRow t (make_key cfg (some (n + 1)) k) with
            | none =>
              simp only [hlk1]
            | some drow =>
              simp only [hlk1] at hdst
              simp only [hlk1]
              rw [hdst]
              simp
          · have hm1' : make_key cfg (some m) k ≠ make_key cfg (some n) k :=
              make_key_ne_of_version_ne cfg k m n hm1
            have hm2' : make_key cfg (some m) k ≠ make_key cfg (some (n + 1)) k :=
              make_key_ne_of_version_ne cfg k m (n + 1) hm2
            have heq : lookupRow t2 (make_key cfg (some m) k) =
                lookupRow t (make_key cfg (some m) k) := by
              rw [← ht2, lookupRow_delete_ne _ _ _ hm2',
                lookupRow_insert_ne _ _ _ _ hm1', ← ht1,
                lookupRow_delete_ne _ _ _ hm1',
                lookupRow_insert_ne _ _ _ _ hm2']
            unfold cache_get
            rw [heq]
      · intro u k2 hu
        have hgo : ∀ d : Int, cache_incr_version cfg u now k2 d (some n) =
            Except.error CacheErr.notFound := by
          intro d
          unfold cache_incr_version
          simp only [Option.getD_some]
          match hlu : lookupRow u (make_key cfg (some n) k2) with
          | none => simp only [hlu]
          | some r3 =>
            have hr3 : isLive r3.expires now = false := by
              unfold hasLiveRow at hu
              rw [hlu] at hu
              exact hu
            simp only [hlu, hr3]
            simp
        exact ⟨hgo 1, hgo (-1)⟩

theorem mysql_cache_version_shift_witness :
    cache_get ⟨"", 1, 30, 0⟩ [(":3:k", ⟨Blob.rawInt 42, Expiry.forever⟩)]
      100 "k" (some 3) = some (PyVal.int 42) :=
  (mysql_cache_version_shift ⟨"", 1, 30, 0⟩
    [(":2:k", ⟨Blob.rawInt 42, Expiry.forever⟩)]
    [(":3:k", ⟨Blob.rawInt 42, Expiry.forever⟩)]
    [(":2:k", ⟨Blob.rawInt 42, Expiry.forever⟩)]
    100 "k" 2 3 2 (PyVal.int 42) rfl rfl rfl rfl).2.2.2.1

/-- C3 counterexample: when a live row already exists at the destination
version, `incr_version` followed by `decr_version` is not an exact
inverse: the value originally stored at the destination version (here
20 at version 3) is overwritten by the move and lost, so the original
version-to-value mapping is not restored. -/
theorem mysql_cache_version_shift_counterexample :
    cache_incr_version ⟨"", 1, 30, 0⟩
      [(":2:k", ⟨Blob.rawInt 10, Expiry.forever⟩),
       (":3:k", ⟨Blob.rawInt 20, Expiry.forever⟩)] 100 "k" 1 (some 2) =
      Except.ok (3, [(":3:k", ⟨Blob.rawInt 10, Expiry.forever⟩)]) ∧
    cache_decr_version ⟨"", 1, 30, 0⟩
      [(":3:k", ⟨Blob.rawInt 10, Expiry.forever⟩)] 100 "k" 1 (some 3) =
      Except.ok (2, [(":2:k", ⟨Blob.rawInt 10, Expiry.forever⟩)]) ∧
    cache_get ⟨"", 1, 30, 0⟩
      [(":2:k", ⟨Blob.rawInt 10, Expiry.forever⟩),
       (":3:k", ⟨Blob.rawInt 20, Expiry.forever⟩)] 100 "k" (some 3) =
      some (PyVal.int 20) ∧
    cache_get ⟨"", 1, 30, 0⟩
      [(":2:k", ⟨Blob.rawInt 10, Expiry.forever⟩)] 100 "k" (some 3) = none :=
  ⟨rfl, rfl, rfl, rfl⟩
